import Mathlib

/-!
# torolog: a levelled, structured logging facade over zerolog

The development has three layers.

* `zerolog`: the part of the engine (github.com/rs/zerolog, with encoding/json behind its
  `InterfaceMarshalFunc`) that `torolog.go` calls. The engine is an external library; it is
  embedded here at the level of the byte buffer it builds, with its default global settings
  (`GlobalLevel` at trace, field names `level`, `error`, `message`, no hooks, no sampler).
* `torolog`: the facade, one definition per declaration of `torolog.go`.
* `wire`: the output format as the specification words it, used to state the claims.

The sink (`io.Writer`) is held by reference in Go. Here a `Writer` is the sequence of chunks it
has received, and an emit operation returns the logger with the sink as the call left it.
The process-terminating behaviour the engine attaches to `Fatal` and `Panic` happens after the
write and is not part of the sink; it is left out. An error argument is `none` for the nil
interface and otherwise a `GoError`, which keeps apart the three ways the engine treats a
non-nil error.
-/

namespace zerolog

/-- A byte slice of the engine. Text is kept as characters; Go strings are taken to be valid
UTF-8, so a character above U+007F stands for its own byte sequence. -/
abbrev Bytes := List Char

/-- The engine level type is `int8`; the value is kept as an integer. -/
abbrev Level := Int

def DebugLevel : Level := 0
def InfoLevel : Level := 1
def WarnLevel : Level := 2
def ErrorLevel : Level := 3
def FatalLevel : Level := 4
def PanicLevel : Level := 5
def NoLevel : Level := 6
def Disabled : Level := 7
def TraceLevel : Level := -1

/-- Go conversion of an `int` to the `int8` behind `zerolog.Level`: two's complement wrap. -/
def toInt8 (n : Int) : Level := (n + 128) % 256 - 128

/-- Name of a level, `Level.String` of the engine (the default `LevelFieldMarshalFunc`). -/
def Level.String (l : Level) : String :=
  if l = TraceLevel then "trace"
  else if l = DebugLevel then "debug"
  else if l = InfoLevel then "info"
  else if l = WarnLevel then "warn"
  else if l = ErrorLevel then "error"
  else if l = FatalLevel then "fatal"
  else if l = PanicLevel then "panic"
  else if l = Disabled then "disabled"
  else if l = NoLevel then ""
  else toString l

/-- Default of the process-wide minimum level (`SetGlobalLevel(TraceLevel)` in the engine's
package initialisation); the facade never changes it. -/
def GlobalLevel : Level := TraceLevel

def LevelFieldName : String := "level"
def ErrorFieldName : String := "error"
def MessageFieldName : String := "message"

/-- The sink: the chunks handed to `Write`, oldest first. -/
structure Writer where
  writes : List String
deriving DecidableEq, Repr

/-- One call of `Write` on the sink. -/
def Writer.Write (w : Writer) (p : Bytes) : Writer :=
  { writes := w.writes ++ [String.mk p] }

/-- Everything the sink has received, as one text (the `String()` of a `bytes.Buffer`). -/
def Writer.content (w : Writer) : String :=
  String.join w.writes

/-- The values a field can carry (`interface{}` in Go). `field` is a value implementing the
engine's object-marshalling capability by emitting one key, as `torolog.Field` itself does;
`other` is any further value encoding/json can project (floats, byte slices, times, durations,
structs, ...), given by that projection; `unsupported` is a value encoding/json rejects, given
by the text of its error. -/
inductive Value where
  | null
  | str (s : String)
  | bool (b : Bool)
  | int (n : Int)
  | field (Key : String) (Value : Value)
  | other (json : String)
  | unsupported (err : String)
deriving DecidableEq, Repr

/-- An error argument that is not the nil interface, by the way the engine's `AnErr` treats
it: `marshaler` is an error with the object-marshalling capability (emitting one key, as for
`Value.field`), `nilPointer` is a nil pointer held in a non-nil interface, `text` is any other
error, given by what its `Error()` returns. -/
inductive GoError where
  | text (msg : String)
  | nilPointer
  | marshaler (Key : String) (Value : Value)
deriving DecidableEq, Repr

def hexDigit (n : Nat) : Char :=
  "0123456789abcdef".toList.getD n '0'

/-- Escape of one character inside a JSON string written by the engine's own encoder:
everything from U+0020 to U+007E except the quote and the backslash is copied. -/
def escapeChar (c : Char) : Bytes :=
  if c = '\x22' ∨ c = '\x5c' then ['\x5c', c]
  else if c = '\x08' then ['\x5c', 'b']
  else if c = '\x0c' then ['\x5c', 'f']
  else if c = '\n' then ['\x5c', 'n']
  else if c = '\r' then ['\x5c', 'r']
  else if c = '\t' then ['\x5c', 't']
  else if c.toNat < 0x20 ∨ c.toNat = 0x7f then
    ['\x5c', 'u', '0', '0', hexDigit (c.toNat / 16), hexDigit (c.toNat % 16)]
  else [c]

/-- Escape of one character inside a JSON string written by encoding/json (`json.Marshal`,
which also escapes the HTML characters and the two Unicode line separators). -/
def jsonEscapeChar (c : Char) : Bytes :=
  if c = '\x22' ∨ c = '\x5c' then ['\x5c', c]
  else if c = '\x08' then ['\x5c', 'b']
  else if c = '\x0c' then ['\x5c', 'f']
  else if c = '\n' then ['\x5c', 'n']
  else if c = '\r' then ['\x5c', 'r']
  else if c = '\t' then ['\x5c', 't']
  else if c.toNat < 0x20 ∨ c = '<' ∨ c = '>' ∨ c = '&' then
    ['\x5c', 'u', '0', '0', hexDigit (c.toNat / 16), hexDigit (c.toNat % 16)]
  else if c.toNat = 0x2028 then "\\u2028".toList
  else if c.toNat = 0x2029 then "\\u2029".toList
  else [c]

def AppendBeginMarker (dst : Bytes) : Bytes := dst ++ ['\x7b']
def AppendEndMarker (dst : Bytes) : Bytes := dst ++ ['\x7d']
def AppendLineBreak (dst : Bytes) : Bytes := dst ++ ['\n']
def AppendArrayStart (dst : Bytes) : Bytes := dst ++ ['[']
def AppendArrayEnd (dst : Bytes) : Bytes := dst ++ [']']

def AppendArrayDelim (dst : Bytes) : Bytes :=
  if dst.length > 0 then dst ++ [','] else dst

def AppendString (dst : Bytes) (s : String) : Bytes :=
  dst ++ ['\x22'] ++ s.toList.flatMap escapeChar ++ ['\x22']

/-- Key of a member: a comma first unless the buffer ends in the opening brace. -/
def AppendKey (dst : Bytes) (key : String) : Bytes :=
  let dst := if dst.getLast? ≠ some '\x7b' then dst ++ [','] else dst
  AppendString dst key ++ [':']

/-- Default of `InterfaceMarshalFunc`: `json.Marshal`, giving the bytes or an error text. -/
def InterfaceMarshalFunc : Value → Except String Bytes
  | .null => .ok "null".toList
  | .str s => .ok (['\x22'] ++ s.toList.flatMap jsonEscapeChar ++ ['\x22'])
  | .bool b => .ok (if b then "true".toList else "false".toList)
  | .int n => .ok (toString n).toList
  | .field k v =>
      match InterfaceMarshalFunc v with
      | .ok b => .ok ("\x7b\"Key\":".toList ++ ['\x22'] ++ k.toList.flatMap jsonEscapeChar
          ++ "\",\"Value\":".toList ++ b ++ ['\x7d'])
      | .error err => .error err
  | .other json => .ok json.toList
  | .unsupported err => .error err

def AppendInterface (dst : Bytes) (i : Value) : Bytes :=
  match InterfaceMarshalFunc i with
  | .error err => AppendString dst ("marshaling error: " ++ err)
  | .ok marshaled => dst ++ marshaled

/-- The engine's logger: the sink and the minimum level (no context, hooks or sampler). -/
structure Logger where
  w : Writer
  level : Level
deriving DecidableEq, Repr

/-- An event under construction; a disabled event is the nil pointer, `none` below. -/
structure Event where
  buf : Bytes
  w : Writer
  level : Level
deriving DecidableEq, Repr

/-- An array under construction. -/
structure Array where
  buf : Bytes
deriving DecidableEq, Repr

def New (w : Writer) : Logger :=
  { w := w, level := TraceLevel }

def Logger.Level (l : Logger) (lvl : zerolog.Level) : Logger :=
  { l with level := lvl }

def Logger.should (l : Logger) (lvl : zerolog.Level) : Bool :=
  if lvl < l.level ∨ lvl < GlobalLevel then false else true

def Event.Str (e : Event) (key val : String) : Event :=
  { e with buf := AppendString (AppendKey e.buf key) val }

/-- Start of an event, `newEvent(w, level)`: a buffer holding the opening brace. -/
def Event.new (w : Writer) (level : Level) : Event :=
  { buf := AppendBeginMarker [], w := w, level := level }

def Logger.newEvent (l : Logger) (level : zerolog.Level) : Option Event :=
  if ¬ l.should level then none
  else
    let e := Event.new l.w level
    some (if level ≠ NoLevel ∧ LevelFieldName ≠ "" then
      e.Str LevelFieldName (Level.String level) else e)

def Logger.Log (l : Logger) : Option Event := l.newEvent NoLevel
def Logger.Trace (l : Logger) : Option Event := l.newEvent TraceLevel
def Logger.Debug (l : Logger) : Option Event := l.newEvent DebugLevel
def Logger.Info (l : Logger) : Option Event := l.newEvent InfoLevel
def Logger.Warn (l : Logger) : Option Event := l.newEvent WarnLevel
def Logger.Error (l : Logger) : Option Event := l.newEvent ErrorLevel
def Logger.Fatal (l : Logger) : Option Event := l.newEvent FatalLevel
def Logger.Panic (l : Logger) : Option Event := l.newEvent PanicLevel

/-- The engine's `Event.Interface`: a value with the object-marshalling capability is written
as a nested object by its own marshaller (for `field`, one `Interface` call with its key and
value); any other value goes through `AppendInterface`. -/
def Event.Interface (e : Event) (key : String) : Value → Event
  | .field k v =>
      let e1 := { e with buf := AppendBeginMarker (AppendKey e.buf key) }
      let e2 := Event.Interface e1 k v
      { e2 with buf := AppendEndMarker e2.buf }
  | i => { e with buf := AppendInterface (AppendKey e.buf key) i }

def Dict : Event := Event.new { writes := [] } 0

def Arr : Array := { buf := [] }

/-- The engine's `Array.Object`, for a marshaller given as a function on events. -/
def Array.Object (a : Array) (obj : Event → Event) : Array :=
  let e := obj Dict
  let e := { e with buf := AppendEndMarker e.buf }
  { buf := AppendArrayDelim a.buf ++ e.buf }

def Array.write (a : Array) (dst : Bytes) : Bytes :=
  let dst := AppendArrayStart dst
  let dst := if a.buf.length > 0 then dst ++ a.buf else dst
  AppendArrayEnd dst

/-- The engine's `Event.Array`, for an array marshaller given as a function on arrays. -/
def Event.Array (e : Option Event) (key : String) (arr : Array → Array) : Option Event :=
  match e with
  | none => none
  | some e =>
      let buf := AppendKey e.buf key
      let a := arr Arr
      some { e with buf := a.write buf }

/-- The engine's `Event.Object` for a marshaller emitting the one key `k` with value `v`: the
key, then the nested object the marshaller writes into the same buffer. -/
def Event.Object (e : Event) (key : String) (k : String) (v : Value) : Event :=
  e.Interface key (.field k v)

/-- The engine's `Event.AnErr` with the default `ErrorMarshalFunc` (the identity): nothing for
the nil interface, a nested object for an error that marshals itself, nothing for a nil pointer
in a non-nil interface (the engine's nil-value check), the text of `Error()` as a string for
any other error. -/
def Event.AnErr (e : Option Event) (key : String) (err : Option zerolog.GoError) : Option Event :=
  match e with
  | none => none
  | some e =>
      match err with
      | none => some e
      | some (.marshaler k v) => some (e.Object key k v)
      | some .nilPointer => some e
      | some (.text msg) => some (e.Str key msg)

/-- The engine's `Event.Err` (no stack marshaller): `AnErr` under the error field name. -/
def Event.Err (e : Option Event) (err : Option zerolog.GoError) : Option Event :=
  match e with
  | none => none
  | some e => Event.AnErr (some e) ErrorFieldName err

def Event.write (e : Event) : Writer :=
  if e.level ≠ Disabled then
    e.w.Write (AppendLineBreak (AppendEndMarker e.buf))
  else e.w

/-- The engine's `Event.Msg`: the sink after the write, or `none` on a nil event. -/
def Event.Msg (e : Option Event) (msg : String) : Option Writer :=
  match e with
  | none => none
  | some e =>
      let e := if msg ≠ "" then
        { e with buf := AppendString (AppendKey e.buf MessageFieldName) msg } else e
      some e.write

end zerolog

namespace torolog

open zerolog (Value Writer GoError)

def fieldsKey : String := "data"

/-- The facade level type is `int`. -/
abbrev Level := Int

def TraceLevel : Level := -1
def DebugLevel : Level := 0
def InfoLevel : Level := 1
def WarnLevel : Level := 2
def ErrorLevel : Level := 3
def FatalLevel : Level := 4
def PanicLevel : Level := 5
def NoLevel : Level := 6

structure Field where
  Key : String
  Value : Value
deriving DecidableEq, Repr

def Field.MarshalZerologObject (f : Field) (e : zerolog.Event) : zerolog.Event :=
  e.Interface f.Key f.Value

abbrev Fields := List Field

def Fields.MarshalZerologArray (ff : Fields) (a : zerolog.Array) : zerolog.Array :=
  ff.foldl (fun a f => a.Object f.MarshalZerologObject) a

structure Logger where
  log : zerolog.Logger
  level : Level
deriving DecidableEq, Repr

def New (output : Writer) : Logger :=
  let logger := zerolog.New output
  { log := logger, level := NoLevel }

def NewWithLevel (output : Writer) (level : Level) : Logger :=
  if level < -1 ∨ level > 6 then New output
  else
    let logger := (zerolog.New output).Level (zerolog.toInt8 level)
    { log := logger, level := level }

/-- The logger once an emit call has returned: the engine wrote through its reference to the
sink, or (nil event) did nothing. -/
def Logger.after (l : Logger) : Option Writer → Logger
  | none => l
  | some w => { l with log := { l.log with w := w } }

def Logger.Log (l : Logger) (msg : String) (fields : Fields) : Logger :=
  l.after (zerolog.Event.Msg
    (zerolog.Event.Array l.log.Log fieldsKey fields.MarshalZerologArray) msg)

def Logger.Trace (l : Logger) (msg : String) (err : Option zerolog.GoError) (fields : Fields) :
    Logger :=
  l.after (zerolog.Event.Msg (zerolog.Event.Err
    (zerolog.Event.Array l.log.Trace fieldsKey fields.MarshalZerologArray) err) msg)

def Logger.Debug (l : Logger) (msg : String) (fields : Fields) : Logger :=
  l.after (zerolog.Event.Msg
    (zerolog.Event.Array l.log.Debug fieldsKey fields.MarshalZerologArray) msg)

def Logger.Info (l : Logger) (msg : String) (fields : Fields) : Logger :=
  l.after (zerolog.Event.Msg
    (zerolog.Event.Array l.log.Info fieldsKey fields.MarshalZerologArray) msg)

def Logger.Warn (l : Logger) (msg : String) (fields : Fields) : Logger :=
  l.after (zerolog.Event.Msg
    (zerolog.Event.Array l.log.Warn fieldsKey fields.MarshalZerologArray) msg)

def Logger.Error (l : Logger) (msg : String) (err : Option zerolog.GoError) (fields : Fields) :
    Logger :=
  l.after (zerolog.Event.Msg (zerolog.Event.Err
    (zerolog.Event.Array l.log.Error fieldsKey fields.MarshalZerologArray) err) msg)

def Logger.Fatal (l : Logger) (msg : String) (err : Option zerolog.GoError) (fields : Fields) :
    Logger :=
  l.after (zerolog.Event.Msg (zerolog.Event.Err
    (zerolog.Event.Array l.log.Fatal fieldsKey fields.MarshalZerologArray) err) msg)

def Logger.Panic (l : Logger) (msg : String) (err : Option zerolog.GoError) (fields : Fields) :
    Logger :=
  l.after (zerolog.Event.Msg (zerolog.Event.Err
    (zerolog.Event.Array l.log.Panic fieldsKey fields.MarshalZerologArray) err) msg)

def Logger.GetLevel (l : Logger) : Level :=
  l.level

/-- What the sink of the logger has received. -/
def Logger.out (l : Logger) : List String :=
  l.log.w.writes

/-- The eight emit operations of the facade. -/
inductive Op where
  | Log | Trace | Debug | Info | Warn | Error | Fatal | Panic
deriving DecidableEq, Repr

/-- A call of an emit operation; `err` is ignored by the four operations that have no error
parameter. -/
def Logger.emit (l : Logger) (op : Op) (msg : String) (err : Option zerolog.GoError)
    (fields : Fields) : Logger :=
  match op with
  | .Log => l.Log msg fields
  | .Trace => l.Trace msg err fields
  | .Debug => l.Debug msg fields
  | .Info => l.Info msg fields
  | .Warn => l.Warn msg fields
  | .Error => l.Error msg err fields
  | .Fatal => l.Fatal msg err fields
  | .Panic => l.Panic msg err fields

/-- Severity of an operation in the facade's own levels; `Log` has none and is given `NoLevel`,
the level at which the engine emits it. -/
def Op.severity : Op → Level
  | .Log => NoLevel
  | .Trace => TraceLevel
  | .Debug => DebugLevel
  | .Info => InfoLevel
  | .Warn => WarnLevel
  | .Error => ErrorLevel
  | .Fatal => FatalLevel
  | .Panic => PanicLevel

/-- Canonical lowercase name of a levelled operation; `Log` has none. -/
def Op.name : Op → Option String
  | .Log => none
  | .Trace => some "trace"
  | .Debug => some "debug"
  | .Info => some "info"
  | .Warn => some "warn"
  | .Error => some "error"
  | .Fatal => some "fatal"
  | .Panic => some "panic"

/-- Whether the operation has an error parameter. -/
def Op.takesErr : Op → Bool
  | .Trace | .Error | .Fatal | .Panic => true
  | _ => false

end torolog

/-! ## The output format, as the specification words it -/

namespace wire

open zerolog (Bytes Value GoError)

/-- A JSON string as the engine writes keys, level names, error texts and messages. -/
def quote (s : String) : Bytes :=
  ['\x22'] ++ s.toList.flatMap zerolog.escapeChar ++ ['\x22']

/-- Projection of a field value: a nested single-key object for a value that marshals itself,
the engine's native projection (or the text of its failure, as a string) for any other. -/
def value : Value → Bytes
  | .field k v => ['\x7b'] ++ quote k ++ [':'] ++ value v ++ ['\x7d']
  | v =>
      match zerolog.InterfaceMarshalFunc v with
      | .ok b => b
      | .error err => quote ("marshaling error: " ++ err)

/-- A field rendered as the single-key object `{Key: Value}`. -/
def element (f : torolog.Field) : Bytes :=
  ['\x7b'] ++ quote f.Key ++ [':'] ++ value f.Value ++ ['\x7d']

/-- A field list rendered as an array: its elements in order, separated by commas. -/
def array (ff : torolog.Fields) : Bytes :=
  ['['] ++ List.intercalate [','] (ff.map element) ++ [']']

/-- What the `error` member holds for an error argument, if the line has one: the text of the
error as a string, or the object of an error that marshals itself; no member for the nil
interface and none for a nil pointer held in a non-nil interface. -/
def errorValue : Option zerolog.GoError → Option Bytes
  | none => none
  | some .nilPointer => none
  | some (.text msg) => some (quote msg)
  | some (.marshaler k v) => some (value (.field k v))

/-- One event of the output: which members it has and what they hold (the level name and the
message as texts, the `error` member as its rendered value). -/
structure Line where
  level : Option String
  data : torolog.Fields
  error : Option Bytes
  message : Option String
deriving DecidableEq, Repr

/-- The members of a line in the order of the format: `level`, `data`, `error`, `message`,
each present member with its rendered value. -/
def Line.members (r : Line) : List (String × Bytes) :=
  (r.level.toList.map fun n => ("level", quote n))
    ++ [("data", array r.data)]
    ++ (r.error.toList.map fun b => ("error", b))
    ++ (r.message.toList.map fun m => ("message", quote m))

/-- The keys of the top-level object of a line, in order. -/
def Line.keys (r : Line) : List String :=
  r.members.map Prod.fst

/-- The line as text: one JSON object, members separated by commas, then a newline. -/
def Line.render (r : Line) : String :=
  String.mk (['\x7b']
    ++ List.intercalate [','] (r.members.map fun m => quote m.1 ++ [':'] ++ m.2)
    ++ ['\x7d', '\n'])

/-- The line the format prescribes for a call: the name of the level unless the call is
`Log`, the field list, the error if the operation takes one and one was given (`errorValue`),
the message if it is not empty. -/
def lineOf (op : torolog.Op) (msg : String) (err : Option zerolog.GoError) (fields : torolog.Fields) :
    Line :=
  { level := op.name
    data := fields
    error := if op.takesErr then errorValue err else none
    message := if msg = "" then none else some msg }

end wire

/-! ## The engine builds the format -/

namespace zerolog

theorem AppendKey_open (b : Bytes) (key : String) :
    AppendKey (b ++ ['\x7b']) key = b ++ ['\x7b'] ++ wire.quote key ++ [':'] := by
  simp [AppendKey, AppendString, wire.quote]

theorem AppendKey_after (b : Bytes) (c : Char) (key : String) (hc : c ≠ '\x7b') :
    AppendKey (b ++ [c]) key = b ++ [c] ++ [','] ++ wire.quote key ++ [':'] := by
  simp [AppendKey, AppendString, wire.quote, hc]

theorem AppendString_eq (b : Bytes) (s : String) :
    AppendString b s = b ++ wire.quote s := by
  simp [AppendString, wire.quote]

theorem Interface_spec (v : Value) (e : Event) (key : String) :
    e.Interface key v
      = { e with buf := AppendKey e.buf key ++ wire.value v } := by
  induction v generalizing e key with
  | field k v ih =>
      simp only [Event.Interface, ih, AppendBeginMarker, AppendEndMarker, AppendKey_open,
        wire.value]
      simp
  | null => simp [Event.Interface, AppendInterface, InterfaceMarshalFunc, wire.value]
  | str s => simp [Event.Interface, AppendInterface, InterfaceMarshalFunc, wire.value]
  | bool b => simp [Event.Interface, AppendInterface, InterfaceMarshalFunc, wire.value]
  | int n => simp [Event.Interface, AppendInterface, InterfaceMarshalFunc, wire.value]
  | other j => simp [Event.Interface, AppendInterface, InterfaceMarshalFunc, wire.value]
  | unsupported err =>
      simp [Event.Interface, AppendInterface, InterfaceMarshalFunc, wire.value, AppendString_eq]

theorem Object_spec (a : Array) (f : torolog.Field) :
    a.Object f.MarshalZerologObject
      = { buf := AppendArrayDelim a.buf ++ wire.element f } := by
  have h := AppendKey_open [] f.Key
  simp only [List.nil_append] at h
  simp [Array.Object, torolog.Field.MarshalZerologObject, Interface_spec, Dict, Event.new,
    AppendBeginMarker, AppendEndMarker, h, wire.element]

theorem element_ne_nil (f : torolog.Field) : wire.element f ≠ [] := by
  simp [wire.element]

theorem intercalate_cons_cons (sep x y : Bytes) (xs : List Bytes) :
    List.intercalate sep (x :: y :: xs) = x ++ sep ++ List.intercalate sep (y :: xs) := by
  simp [List.intercalate, List.intersperse]

/-- The loop of `MarshalZerologArray` on an array that already holds something. -/
theorem MarshalZerologArray_nonempty (ff : torolog.Fields) (a : Array) (ha : a.buf ≠ []) :
    (torolog.Fields.MarshalZerologArray ff a).buf
      = a.buf ++ (ff.map fun f => [','] ++ wire.element f).flatten := by
  induction ff generalizing a with
  | nil => simp [torolog.Fields.MarshalZerologArray]
  | cons f fs ih =>
      have hlen : a.buf.length > 0 := List.length_pos.mpr ha
      have hstep : (a.Object f.MarshalZerologObject).buf = a.buf ++ [','] ++ wire.element f := by
        simp [Object_spec, AppendArrayDelim, hlen]
      have hne : (a.Object f.MarshalZerologObject).buf ≠ [] := by
        rw [hstep]; simp [ha]
      have := ih (a.Object f.MarshalZerologObject) hne
      simp only [torolog.Fields.MarshalZerologArray, List.foldl_cons] at this ⊢
      rw [this, hstep]
      simp

theorem intercalate_eq (x : Bytes) (xs : List Bytes) :
    List.intercalate [','] (x :: xs) = x ++ (xs.map fun y => [','] ++ y).flatten := by
  induction xs generalizing x with
  | nil => simp [List.intercalate, List.intersperse]
  | cons y ys ih => rw [intercalate_cons_cons, ih y]; simp

/-- The loop of `MarshalZerologArray` from the empty array: the elements, comma-separated. -/
theorem MarshalZerologArray_spec (ff : torolog.Fields) :
    (torolog.Fields.MarshalZerologArray ff Arr).buf
      = List.intercalate [','] (ff.map wire.element) := by
  cases ff with
  | nil => simp [torolog.Fields.MarshalZerologArray, Arr, List.intercalate]
  | cons f fs =>
      have hstep : (Arr.Object f.MarshalZerologObject).buf = wire.element f := by
        simp [Object_spec, AppendArrayDelim, Arr]
      have hne : (Arr.Object f.MarshalZerologObject).buf ≠ [] := by
        rw [hstep]; exact element_ne_nil f
      have := MarshalZerologArray_nonempty fs (Arr.Object f.MarshalZerologObject) hne
      simp only [torolog.Fields.MarshalZerologArray, List.foldl_cons] at this ⊢
      rw [this, hstep, List.map_cons, intercalate_eq]
      simp [List.map_map, Function.comp_def]

/-- The array member as the engine writes it after the bytes `dst`. -/
theorem Array_write_spec (ff : torolog.Fields) (dst : Bytes) :
    (torolog.Fields.MarshalZerologArray ff Arr).write dst = dst ++ wire.array ff := by
  simp only [Array.write, MarshalZerologArray_spec, AppendArrayStart, AppendArrayEnd,
    wire.array]
  split <;> rename_i h
  · simp
  · have : List.intercalate [','] (ff.map wire.element) = [] := by
      simpa [List.length_eq_zero] using h
    simp [this]

theorem newEvent_spec (l : Logger) (lvl : zerolog.Level) :
    l.newEvent lvl
      = if l.should lvl then
          some { buf := if lvl = NoLevel then ['\x7b']
                   else ['\x7b'] ++ wire.quote "level" ++ [':'] ++ wire.quote (Level.String lvl)
                 w := l.w, level := lvl }
        else none := by
  have h := AppendKey_open [] "level"
  simp only [List.nil_append] at h
  unfold Logger.newEvent
  cases hs : l.should lvl <;> by_cases hl : lvl = NoLevel <;>
    simp [hl, Event.new, Event.Str, LevelFieldName, AppendBeginMarker, AppendString_eq, h]

theorem AppendKey_quote (b : Bytes) (s key : String) :
    AppendKey (b ++ wire.quote s) key
      = b ++ wire.quote s ++ [','] ++ wire.quote key ++ [':'] := by
  have := AppendKey_after (b ++ ['\x22'] ++ s.toList.flatMap escapeChar) '\x22' key (by decide)
  simpa [wire.quote] using this

theorem AppendKey_array (b : Bytes) (ff : torolog.Fields) (key : String) :
    AppendKey (b ++ wire.array ff) key
      = b ++ wire.array ff ++ [','] ++ wire.quote key ++ [':'] := by
  have := AppendKey_after (b ++ ['['] ++ List.intercalate [','] (ff.map wire.element)) ']' key
    (by decide)
  simpa [wire.array] using this

theorem AppendKey_object (b : Bytes) (k : String) (v : Value) (key : String) :
    AppendKey (b ++ wire.value (.field k v)) key
      = b ++ wire.value (.field k v) ++ [','] ++ wire.quote key ++ [':'] := by
  have := AppendKey_after (b ++ ['\x7b'] ++ wire.quote k ++ [':'] ++ wire.value v) '\x7d' key
    (by decide)
  simpa [wire.value] using this

/-- The chain `newEvent(lvl).Array("data", ff).Err(err).Msg(msg)` on a logger that lets the
level through writes the line of the format. -/
theorem chain_spec (l : Logger) (lvl : zerolog.Level) (ff : torolog.Fields)
    (err : Option zerolog.GoError) (msg : String) (hs : l.should lvl = true) (hd : lvl ≠ Disabled) :
    Event.Msg (Event.Err (Event.Array (l.newEvent lvl) torolog.fieldsKey
        (torolog.Fields.MarshalZerologArray ff)) err) msg
      = some { writes := l.w.writes ++ [wire.Line.render
          { level := if lvl = NoLevel then none else some (Level.String lvl)
            data := ff, error := wire.errorValue err
            message := if msg = "" then none else some msg }] } := by
  have ho : AppendKey ['\x7b'] "data" = ['\x7b'] ++ wire.quote "data" ++ [':'] := by
    simpa using AppendKey_open [] "data"
  have hnd : ¬ (NoLevel = Disabled) := by decide
  rw [newEvent_spec, if_pos hs]
  by_cases hl : lvl = NoLevel <;> rcases err with _ | (t | _ | ⟨k, v⟩) <;>
    by_cases hm : msg = "" <;>
    simp only [hl, hm, hd, Event.Array, Event.Err, Event.AnErr, Event.Object, Interface_spec,
      Event.Msg, Event.write, Event.Str, Array_write_spec, torolog.fieldsKey, ErrorFieldName,
      MessageFieldName, AppendString_eq, ho, AppendKey_quote, AppendKey_array, AppendKey_object,
      wire.errorValue, if_true, if_false, ne_eq, not_true_eq_false, not_false_eq_true] <;>
    simp [Writer.Write, wire.Line.render, wire.Line.members, AppendLineBreak, AppendEndMarker,
      List.intercalate, List.intersperse, hnd]

theorem Err_none (e : Option Event) : Event.Err e none = e := by
  cases e <;> rfl

theorem errorValue_cond (c : Bool) (err : Option zerolog.GoError) :
    wire.errorValue (if c then err else none) = if c then wire.errorValue err else none := by
  cases c <;> rfl

/-- The same chain on a logger that filters the level does nothing. -/
theorem chain_filtered (l : Logger) (lvl : zerolog.Level) (ff : torolog.Fields)
    (err : Option zerolog.GoError) (msg : String) (hs : l.should lvl = false) :
    Event.Msg (Event.Err (Event.Array (l.newEvent lvl) torolog.fieldsKey
        (torolog.Fields.MarshalZerologArray ff)) err) msg = none := by
  simp [newEvent_spec, hs, Event.Array, Event.Err, Event.Msg]

end zerolog

namespace torolog

/-- Each facade operation is the engine chain at the level of its severity. -/
theorem emit_chain (l : Logger) (op : Op) (msg : String) (err : Option zerolog.GoError)
    (fields : Fields) :
    l.emit op msg err fields
      = l.after (zerolog.Event.Msg (zerolog.Event.Err (zerolog.Event.Array
          (l.log.newEvent op.severity) fieldsKey fields.MarshalZerologArray)
          (if op.takesErr then err else none)) msg) := by
  cases op <;> simp [Logger.emit, Logger.Log, Logger.Trace, Logger.Debug, Logger.Info,
    Logger.Warn, Logger.Error, Logger.Fatal, Logger.Panic, zerolog.Logger.Log,
    zerolog.Logger.Trace, zerolog.Logger.Debug, zerolog.Logger.Info, zerolog.Logger.Warn,
    zerolog.Logger.Error, zerolog.Logger.Fatal, zerolog.Logger.Panic, Op.severity, Op.takesErr,
    zerolog.Err_none] <;> rfl

theorem severity_ne_Disabled (op : Op) : op.severity ≠ zerolog.Disabled := by
  cases op <;> decide

theorem name_eq (op : Op) :
    (if op.severity = zerolog.NoLevel then none else some (zerolog.Level.String op.severity))
      = op.name := by
  cases op <;> decide

/-- A call the engine lets through hands the sink one chunk, the line of the format. -/
theorem emit_written (l : Logger) (op : Op) (msg : String) (err : Option zerolog.GoError)
    (fields : Fields) (hs : l.log.should op.severity = true) :
    l.emit op msg err fields
      = { l with log := { l.log with
            w := { writes := l.log.w.writes ++ [(wire.lineOf op msg err fields).render] } } } := by
  rw [emit_chain, zerolog.chain_spec l.log op.severity fields _ msg hs (severity_ne_Disabled op),
    name_eq, zerolog.errorValue_cond]
  rfl

/-- A call the engine filters leaves the logger, and with it the sink, as it was. -/
theorem emit_filtered (l : Logger) (op : Op) (msg : String) (err : Option zerolog.GoError)
    (fields : Fields) (hs : l.log.should op.severity = false) :
    l.emit op msg err fields = l := by
  rw [emit_chain, zerolog.chain_filtered l.log op.severity fields _ msg hs]
  rfl

theorem out_written (l : Logger) (op : Op) (msg : String) (err : Option zerolog.GoError)
    (fields : Fields) (hs : l.log.should op.severity = true) :
    (l.emit op msg err fields).out = l.out ++ [(wire.lineOf op msg err fields).render] := by
  rw [emit_written l op msg err fields hs]
  rfl

theorem out_filtered (l : Logger) (op : Op) (msg : String) (err : Option zerolog.GoError)
    (fields : Fields) (hs : l.log.should op.severity = false) :
    (l.emit op msg err fields).out = l.out := by
  rw [emit_filtered l op msg err fields hs]

/-- The engine test of a logger at minimum level `m`: an event of level `lvl` passes exactly
when `m ≤ lvl` and the level is not below trace. -/
theorem should_iff (l : zerolog.Logger) (lvl : zerolog.Level) :
    l.should lvl = true ↔ l.level ≤ lvl ∧ -1 ≤ lvl := by
  simp only [zerolog.Logger.should, zerolog.GlobalLevel, zerolog.TraceLevel]
  unfold zerolog.Level at *
  split <;> rename_i h
  · simp only [Bool.false_eq_true, false_iff]; omega
  · simp only [true_iff]; omega

theorem severity_bounds (op : Op) : -1 ≤ op.severity ∧ op.severity ≤ 6 := by
  cases op <;> decide

theorem severity_le_five (op : Op) (h : op ≠ Op.Log) : op.severity ≤ 5 := by
  cases op <;> first | exact absurd rfl h | decide

theorem New_log_level (output : zerolog.Writer) : (New output).log.level = -1 := rfl

theorem New_out (output : zerolog.Writer) : (New output).out = output.writes := rfl

theorem NewWithLevel_in_range (output : zerolog.Writer) (level : Level)
    (h1 : -1 ≤ level) (h2 : level ≤ 6) :
    NewWithLevel output level
      = { log := { w := output, level := level }, level := level } := by
  unfold Level at *
  have hc : ¬ (level < -1 ∨ level > 6) := by omega
  have h8 : zerolog.toInt8 level = level := by
    unfold zerolog.toInt8 zerolog.Level; omega
  simp [NewWithLevel, hc, h8, zerolog.New, zerolog.Logger.Level]

/-- A logger from `New` has the engine at trace: nothing is filtered. -/
theorem New_should (output : zerolog.Writer) (op : Op) :
    (New output).log.should op.severity = true := by
  rw [should_iff, New_log_level]
  exact ⟨(severity_bounds op).1, (severity_bounds op).1⟩

theorem NewWithLevel_out_of_range (output : zerolog.Writer) (level : Level)
    (h : level < -1 ∨ level > 6) : NewWithLevel output level = New output := by
  simp [NewWithLevel, h]

end torolog

/-! ## The embedding against the repository's tests -/

set_option maxRecDepth 8000

namespace torolog

/-- The three cases of `TestInfo`: what the buffer holds after the call. -/
theorem TestInfo_expected :
    ((New ⟨[]⟩).Info "" []).log.w.content = "\x7b\"level\":\"info\",\"data\":[]\x7d\n"
      ∧ ((New ⟨[]⟩).Info "" [⟨"foo", .str "bar"⟩]).log.w.content
          = "\x7b\"level\":\"info\",\"data\":[\x7b\"foo\":\"bar\"\x7d]\x7d\n"
      ∧ ((New ⟨[]⟩).Info "" [⟨"foo", .str "bar"⟩, ⟨"n", .int 999⟩]).log.w.content
          = "\x7b\"level\":\"info\",\"data\":[\x7b\"foo\":\"bar\"\x7d,\x7b\"n\":999\x7d]\x7d\n" := by
  decide

/-- The seven cases of `TestLevel`: a logger at the level of the operation writes the event,
with an `error` member for the operations called with `errors.New("")`. -/
theorem TestLevel_expected :
    ((NewWithLevel ⟨[]⟩ TraceLevel).Trace "" (some (.text "")) []).log.w.content
        = "\x7b\"level\":\"trace\",\"data\":[],\"error\":\"\"\x7d\n"
      ∧ ((NewWithLevel ⟨[]⟩ DebugLevel).Debug "" []).log.w.content
        = "\x7b\"level\":\"debug\",\"data\":[]\x7d\n"
      ∧ ((NewWithLevel ⟨[]⟩ InfoLevel).Info "" []).log.w.content
        = "\x7b\"level\":\"info\",\"data\":[]\x7d\n"
      ∧ ((NewWithLevel ⟨[]⟩ WarnLevel).Warn "" []).log.w.content
        = "\x7b\"level\":\"warn\",\"data\":[]\x7d\n"
      ∧ ((NewWithLevel ⟨[]⟩ ErrorLevel).Error "" (some (.text "")) []).log.w.content
        = "\x7b\"level\":\"error\",\"data\":[],\"error\":\"\"\x7d\n"
      ∧ ((NewWithLevel ⟨[]⟩ FatalLevel).Fatal "" (some (.text "")) []).log.w.content
        = "\x7b\"level\":\"fatal\",\"data\":[],\"error\":\"\"\x7d\n"
      ∧ ((NewWithLevel ⟨[]⟩ PanicLevel).Panic "" (some (.text "")) []).log.w.content
        = "\x7b\"level\":\"panic\",\"data\":[],\"error\":\"\"\x7d\n" := by
  decide

/-- The cases of `TestFields` whose values the embedding carries by kind, and the others by
their encoding/json projection. -/
theorem TestFields_expected :
    ((New ⟨[]⟩).Info "" [⟨"nil", .null⟩, ⟨"string", .str "foo"⟩, ⟨"bytes", .other "\"YmFy\""⟩,
        ⟨"bool", .bool true⟩, ⟨"int", .int 1⟩, ⟨"dur", .other "1000000000"⟩,
        ⟨"obj", .field "value" (.str "a")⟩]).log.w.content
      = "\x7b\"level\":\"info\",\"data\":[\x7b\"nil\":null\x7d,\x7b\"string\":\"foo\"\x7d,\x7b\"bytes\":\"YmFy\"\x7d,\x7b\"bool\":true\x7d,\x7b\"int\":1\x7d,\x7b\"dur\":1000000000\x7d,\x7b\"obj\":\x7b\"value\":\"a\"\x7d\x7d]\x7d\n" := by
  decide

end torolog

/-! ## The claims -/

namespace torolog

/-- C1: for every sink and every valid level L, from TraceLevel = -1 to NoLevel = 6,
`NewWithLevel(S, L).GetLevel()` is L. -/
theorem C1_GetLevel_valid (S : zerolog.Writer) (L : Level)
    (h1 : TraceLevel ≤ L) (h2 : L ≤ NoLevel) :
    (NewWithLevel S L).GetLevel = L := by
  rw [NewWithLevel_in_range S L h1 h2]
  rfl

theorem C1_GetLevel_valid_witness :
    TraceLevel ≤ ErrorLevel ∧ ErrorLevel ≤ NoLevel
      ∧ (NewWithLevel ⟨["old\n"]⟩ ErrorLevel).GetLevel = ErrorLevel :=
  ⟨by decide, by decide, C1_GetLevel_valid ⟨["old\n"]⟩ ErrorLevel (by decide) (by decide)⟩

/-- C2: for every sink and every out-of-range level L (below -1 or above 6),
`NewWithLevel(S, L)` is a logger (the constructor is total), it is the logger `New(S)` returns,
so it has the same recorded level, namely NoLevel, and the same engine filter. -/
theorem C2_fallback_to_New (S : zerolog.Writer) (L : Level)
    (h : L < TraceLevel ∨ NoLevel < L) :
    NewWithLevel S L = New S
      ∧ (NewWithLevel S L).GetLevel = NoLevel
      ∧ (NewWithLevel S L).GetLevel = (New S).GetLevel
      ∧ (NewWithLevel S L).log.level = (New S).log.level := by
  have hN : NewWithLevel S L = New S := NewWithLevel_out_of_range S L h
  rw [hN]
  exact ⟨rfl, rfl, rfl, rfl⟩

theorem C2_fallback_to_New_witness :
    ((7 : Level) < TraceLevel ∨ NoLevel < 7)
      ∧ NewWithLevel ⟨[]⟩ 7 = New ⟨[]⟩
      ∧ (NewWithLevel ⟨[]⟩ 7).GetLevel = NoLevel
      ∧ (NewWithLevel ⟨[]⟩ 7).GetLevel = (New ⟨[]⟩).GetLevel
      ∧ (NewWithLevel ⟨[]⟩ 7).log.level = (New ⟨[]⟩).log.level :=
  ⟨by decide, C2_fallback_to_New ⟨[]⟩ 7 (by decide)⟩

/-- C3: for every field list F, `Info("", F)` on a logger from `New(S)` hands the sink exactly
one line, `{"level":"info","data":[...]}` and a newline, whose array holds the elements of
`F.map element` separated by commas: as many as F has fields, the i-th being the single-key
object of the i-th field (key, colon, projected value, in braces), nothing merged, dropped or
reordered whatever the keys are; for the empty list the line is `{"level":"info","data":[]}`. -/
theorem C3_Info_data_array (S : zerolog.Writer) (F : Fields) :
    ((New S).Info "" F).out
        = S.writes ++ [String.mk ("\x7b\"level\":\"info\",\"data\":[".toList
            ++ List.intercalate [','] (F.map wire.element) ++ "]\x7d\n".toList)]
      ∧ (F.map wire.element).length = F.length
      ∧ (∀ i : Nat, (F.map wire.element)[i]?
          = F[i]?.map fun f =>
              ['\x7b'] ++ wire.quote f.Key ++ [':'] ++ wire.value f.Value ++ ['\x7d'])
      ∧ ((New S).Info "" []).out = S.writes ++ ["\x7b\"level\":\"info\",\"data\":[]\x7d\n"] := by
  have hs : (New S).log.should Op.Info.severity = true := New_should S Op.Info
  have key : ∀ G : Fields, ((New S).Info "" G).out
      = S.writes ++ [String.mk ("\x7b\"level\":\"info\",\"data\":[".toList
          ++ List.intercalate [','] (G.map wire.element) ++ "]\x7d\n".toList)] := by
    intro G
    have h := out_written (New S) Op.Info "" none G hs
    have hq1 : wire.quote "level" = "\"level\"".toList := by decide
    have hq2 : wire.quote "info" = "\"info\"".toList := by decide
    have hq3 : wire.quote "data" = "\"data\"".toList := by decide
    simp only [Logger.emit, New_out] at h
    rw [h]
    simp [wire.Line.render, wire.Line.members, wire.lineOf, Op.name, Op.takesErr, wire.array,
      List.intercalate, List.intersperse, hq1, hq2, hq3]
  refine ⟨key F, by simp, ?_, ?_⟩
  · intro i
    rw [List.getElem?_map]
    rfl
  · rw [key []]
    rfl

/-- C4: for every named severity L from TraceLevel to PanicLevel and every levelled operation
of severity M, a call on `NewWithLevel(S, L)` hands the sink an event if and only if L ≤ M:
when L ≤ M the sink receives exactly the line of the call, otherwise it receives nothing.
(The statement also covers `Log`, counted at NoLevel, which such a logger always writes.) -/
theorem C4_filter_iff (S : zerolog.Writer) (L : Level) (op : Op) (msg : String)
    (err : Option zerolog.GoError) (F : Fields)
    (h1 : TraceLevel ≤ L) (h2 : L ≤ PanicLevel) :
    ((∃ line, ((NewWithLevel S L).emit op msg err F).out = S.writes ++ [line])
        ↔ L ≤ op.severity)
      ∧ (L ≤ op.severity → ((NewWithLevel S L).emit op msg err F).out
          = S.writes ++ [(wire.lineOf op msg err F).render])
      ∧ (¬ L ≤ op.severity → ((NewWithLevel S L).emit op msg err F).out = S.writes) := by
  have hL6 : L ≤ NoLevel := le_trans h2 (by decide)
  have hN := NewWithLevel_in_range S L h1 hL6
  have hlow := (severity_bounds op).1
  have hyes : L ≤ op.severity → ((NewWithLevel S L).emit op msg err F).out
      = S.writes ++ [(wire.lineOf op msg err F).render] := by
    intro hle
    have hs : (NewWithLevel S L).log.should op.severity = true := by
      rw [should_iff, hN]; exact ⟨hle, hlow⟩
    rw [out_written _ op msg err F hs, hN]
    rfl
  have hno : ¬ L ≤ op.severity → ((NewWithLevel S L).emit op msg err F).out = S.writes := by
    intro hle
    have hs : (NewWithLevel S L).log.should op.severity = false := by
      rw [← Bool.not_eq_true, should_iff, hN]
      exact fun h => hle h.1
    rw [out_filtered _ op msg err F hs, hN]
    rfl
  refine ⟨⟨?_, fun hle => ⟨_, hyes hle⟩⟩, hyes, hno⟩
  rintro ⟨line, hline⟩
  by_contra hle
  rw [hno hle] at hline
  have := congrArg List.length hline
  simp at this

theorem C4_filter_iff_witness :
    TraceLevel ≤ ErrorLevel ∧ ErrorLevel ≤ PanicLevel
      ∧ ((∃ line, ((NewWithLevel ⟨[]⟩ ErrorLevel).emit Op.Info "" none []).out
            = ([] : List String) ++ [line]) ↔ ErrorLevel ≤ Op.Info.severity)
      ∧ (ErrorLevel ≤ Op.Info.severity →
          ((NewWithLevel ⟨[]⟩ ErrorLevel).emit Op.Info "" none []).out
            = [] ++ [(wire.lineOf Op.Info "" none []).render])
      ∧ (¬ ErrorLevel ≤ Op.Info.severity →
          ((NewWithLevel ⟨[]⟩ ErrorLevel).emit Op.Info "" none []).out = []) :=
  ⟨by decide, by decide,
    C4_filter_iff ⟨[]⟩ ErrorLevel Op.Info "" none [] (by decide) (by decide)⟩

/-- C5, as stated, fails: the logger `New(S)` records NoLevel = 6, which is numerically
greater than InfoLevel = 1, and its `Info` call is not suppressed. -/
theorem C5_recorded_level_counterexample :
    ¬ ((New ⟨[]⟩).GetLevel > Op.Info.severity →
        ((New ⟨[]⟩).emit Op.Info "" none []).out = (New ⟨[]⟩).out) := by
  decide

/-- C5, amended: for every logger built by `New` or `NewWithLevel` and every levelled operation
of severity M, if the level the logger records (what `GetLevel()` returns) is a named severity,
that is, not the NoLevel sentinel, and is numerically greater than M, the call is suppressed:
the sink holds after the call what it held before. -/
theorem C5_named_level_suppresses (S : zerolog.Writer) (L : Level) (l : Logger)
    (hl : l = New S ∨ l = NewWithLevel S L) (op : Op) (msg : String) (err : Option zerolog.GoError)
    (F : Fields) (hn : l.GetLevel ≠ NoLevel)
    (hgt : l.GetLevel > op.severity) :
    (l.emit op msg err F).out = l.out := by
  have hNew : l ≠ New S := by
    intro h; rw [h] at hn; exact hn rfl
  have hl2 : l = NewWithLevel S L := hl.resolve_left hNew
  have hin : ¬ (L < -1 ∨ L > 6) := by
    intro h
    exact hNew (by rw [hl2, NewWithLevel_out_of_range S L h])
  have h1 : -1 ≤ L := by unfold Level at *; omega
  have h2 : L ≤ 6 := by unfold Level at *; omega
  have hN := NewWithLevel_in_range S L h1 h2
  have hs : l.log.should op.severity = false := by
    rw [← Bool.not_eq_true, should_iff, hl2, hN]
    rw [hl2, hN] at hgt
    exact fun h => absurd h.1 (not_le.mpr hgt)
  exact out_filtered l op msg err F hs

theorem C5_named_level_suppresses_witness :
    (NewWithLevel ⟨["old\n"]⟩ ErrorLevel = New ⟨["old\n"]⟩
        ∨ NewWithLevel ⟨["old\n"]⟩ ErrorLevel = NewWithLevel ⟨["old\n"]⟩ ErrorLevel)
      ∧ (NewWithLevel ⟨["old\n"]⟩ ErrorLevel).GetLevel ≠ NoLevel
      ∧ (NewWithLevel ⟨["old\n"]⟩ ErrorLevel).GetLevel > Op.Warn.severity
      ∧ ((NewWithLevel ⟨["old\n"]⟩ ErrorLevel).emit Op.Warn "m" none [⟨"k", .int 1⟩]).out
          = (NewWithLevel ⟨["old\n"]⟩ ErrorLevel).out :=
  ⟨Or.inr rfl, by decide, by decide,
    C5_named_level_suppresses ⟨["old\n"]⟩ ErrorLevel _ (Or.inr rfl) Op.Warn "m" none
      [⟨"k", .int 1⟩] (by decide) (by decide)⟩

/-- C6, the code at its failing input: `New(S)` and `NewWithLevel(S, NoLevel)` both record
NoLevel; on the first every operation hands the sink one line, on the second only `Log` does and
every levelled operation, Trace to Panic, leaves the sink as it was. -/
theorem C6_NoLevel_passed_to_engine (S : zerolog.Writer) (op : Op) (msg : String)
    (err : Option zerolog.GoError) (F : Fields) :
    (New S).GetLevel = NoLevel
      ∧ (NewWithLevel S NoLevel).GetLevel = NoLevel
      ∧ ((New S).emit op msg err F).out = S.writes ++ [(wire.lineOf op msg err F).render]
      ∧ ((NewWithLevel S NoLevel).emit op msg err F).out
          = (if op = Op.Log then S.writes ++ [(wire.lineOf op msg err F).render]
              else S.writes)
      ∧ ((NewWithLevel ⟨[]⟩ NoLevel).Info "" []).out = []
      ∧ ((New ⟨[]⟩).Info "" []).out = ["\x7b\"level\":\"info\",\"data\":[]\x7d\n"] := by
  have hN := NewWithLevel_in_range S NoLevel (by decide) (by decide)
  refine ⟨rfl, by rw [hN]; rfl, ?_, ?_, by decide, by decide⟩
  · rw [out_written _ op msg err F (New_should S op)]
    rfl
  · by_cases hop : op = Op.Log
    · have hs : (NewWithLevel S NoLevel).log.should op.severity = true := by
        rw [should_iff, hN, hop]; exact ⟨le_refl _, by decide⟩
      rw [out_written _ op msg err F hs, if_pos hop, hN]
      rfl
    · have hs : (NewWithLevel S NoLevel).log.should op.severity = false := by
        rw [← Bool.not_eq_true, should_iff, hN]
        have h5 := severity_le_five op hop
        intro h
        have h6 : (6 : Int) ≤ op.severity := h.1
        unfold Level at *
        omega
      rw [out_filtered _ op msg err F hs, if_neg hop, hN]
      rfl

/-- C7: for every operation and every field list, a call with an empty message and no error
on a logger that does not filter the event appends to the sink exactly one chunk: an opening
brace, for a levelled operation the pair `"level":"<name>"` and a comma (nothing for `Log`),
the pair `"data":[<the fields>]`, a closing brace and a newline. The example of the claim is
the second part. -/
theorem C7_line_format (l : Logger) (op : Op) (F : Fields)
    (hs : l.log.should op.severity = true) :
    (l.emit op "" none F).out
        = l.out ++ [String.mk ("\x7b".toList
            ++ (match op.name with
                | none => []
                | some n => "\"level\":\"".toList ++ n.toList ++ "\",".toList)
            ++ "\"data\":".toList ++ wire.array F ++ "\x7d\n".toList)]
      ∧ ((New ⟨[]⟩).Info "" [⟨"foo", .str "bar"⟩, ⟨"n", .int 999⟩]).out
          = ["\x7b\"level\":\"info\",\"data\":[\x7b\"foo\":\"bar\"\x7d,\x7b\"n\":999\x7d]\x7d\n"] := by
  refine ⟨?_, by decide⟩
  rw [out_written l op "" none F hs]
  have hq : wire.quote "data" = "\"data\"".toList := by decide
  have hl : wire.quote "level" = "\"level\"".toList := by decide
  have h1 : wire.quote "trace" = "\"trace\"".toList := by decide
  have h2 : wire.quote "debug" = "\"debug\"".toList := by decide
  have h3 : wire.quote "info" = "\"info\"".toList := by decide
  have h4 : wire.quote "warn" = "\"warn\"".toList := by decide
  have h5 : wire.quote "error" = "\"error\"".toList := by decide
  have h6 : wire.quote "fatal" = "\"fatal\"".toList := by decide
  have h7 : wire.quote "panic" = "\"panic\"".toList := by decide
  cases op <;>
    simp [wire.Line.render, wire.Line.members, wire.lineOf, Op.name, Op.takesErr,
      List.intercalate, List.intersperse, hq, hl, h1, h2, h3, h4, h5, h6, h7]

theorem C7_line_format_witness :
    (New ⟨["old\n"]⟩).log.should Op.Warn.severity = true
      ∧ ((New ⟨["old\n"]⟩).emit Op.Warn "" none [⟨"k", .bool true⟩]).out
          = (New ⟨["old\n"]⟩).out ++ [String.mk ("\x7b".toList
              ++ (match Op.Warn.name with
                  | none => []
                  | some n => "\"level\":\"".toList ++ n.toList ++ "\",".toList)
              ++ "\"data\":".toList ++ wire.array [⟨"k", .bool true⟩] ++ "\x7d\n".toList)]
      ∧ ((New ⟨[]⟩).Info "" [⟨"foo", .str "bar"⟩, ⟨"n", .int 999⟩]).out
          = ["\x7b\"level\":\"info\",\"data\":[\x7b\"foo\":\"bar\"\x7d,\x7b\"n\":999\x7d]\x7d\n"] :=
  ⟨by decide, C7_line_format (New ⟨["old\n"]⟩) Op.Warn [⟨"k", .bool true⟩] (by decide)⟩

/-- C8, as stated, fails: `Error("m", p, Fields{})` on a logger from `New`, with `p` a nil
pointer held in a non-nil error interface, is written, the operation is Error and the error
argument is not nil, yet the line has no `error` member. -/
theorem C8_nil_pointer_counterexample :
    ((New ⟨[]⟩).Error "m" (some zerolog.GoError.nilPointer) []).out
        = ["\x7b\"level\":\"error\",\"data\":[],\"message\":\"m\"\x7d\n"]
      ∧ ((New ⟨[]⟩).Error "m" (some zerolog.GoError.nilPointer) []).out
        = (New ⟨[]⟩).out ++ [(wire.lineOf Op.Error "m" (some zerolog.GoError.nilPointer) []).render]
      ∧ ¬ ("error" ∈ (wire.lineOf Op.Error "m" (some zerolog.GoError.nilPointer) []).keys
          ↔ (Op.Error = Op.Trace ∨ Op.Error = Op.Error ∨ Op.Error = Op.Fatal
              ∨ Op.Error = Op.Panic) ∧ (some zerolog.GoError.nilPointer) ≠ none) := by
  decide

/-- C8, amended: for every event that is written, the line is the line of the format for the
call, and its top-level object has an `error` key if and only if the operation is one of
Trace, Error, Fatal, Panic and the error given is neither nil nor a nil pointer held in a
non-nil interface; when it has one, the `error` member comes right after the `data` member
and holds the text of the error as a string (empty or not), or the nested object of an error
that marshals itself. -/
theorem C8_error_key_unless_nil_valued (l : Logger) (op : Op) (msg : String)
    (err : Option zerolog.GoError) (F : Fields) (hs : l.log.should op.severity = true) :
    (l.emit op msg err F).out = l.out ++ [(wire.lineOf op msg err F).render]
      ∧ ("error" ∈ (wire.lineOf op msg err F).keys
          ↔ (op = Op.Trace ∨ op = Op.Error ∨ op = Op.Fatal ∨ op = Op.Panic)
              ∧ err ≠ none ∧ err ≠ some zerolog.GoError.nilPointer)
      ∧ (∀ text, (op = Op.Trace ∨ op = Op.Error ∨ op = Op.Fatal ∨ op = Op.Panic) →
          err = some (zerolog.GoError.text text) →
          ∃ pre post, (wire.lineOf op msg err F).members
            = pre ++ [("data", wire.array F), ("error", wire.quote text)] ++ post)
      ∧ (∀ k v, (op = Op.Trace ∨ op = Op.Error ∨ op = Op.Fatal ∨ op = Op.Panic) →
          err = some (zerolog.GoError.marshaler k v) →
          ∃ pre post, (wire.lineOf op msg err F).members
            = pre ++ [("data", wire.array F),
                ("error", ['\x7b'] ++ wire.quote k ++ [':'] ++ wire.value v ++ ['\x7d'])]
              ++ post) := by
  refine ⟨out_written l op msg err F hs, ?_, ?_, ?_⟩
  · cases op <;> rcases err with _ | (t | _ | ⟨k, v⟩) <;> by_cases hm : msg = "" <;>
      simp [wire.Line.keys, wire.Line.members, wire.lineOf, wire.errorValue, Op.name,
        Op.takesErr, hm]
  · intro text hop herr
    subst herr
    refine ⟨op.name.toList.map fun n => ("level", wire.quote n),
      (if msg = "" then none else some msg).toList.map fun m => ("message", wire.quote m), ?_⟩
    rcases hop with h | h | h | h <;> subst h <;>
      simp [wire.Line.members, wire.lineOf, wire.errorValue, Op.takesErr]
  · intro k v hop herr
    subst herr
    refine ⟨op.name.toList.map fun n => ("level", wire.quote n),
      (if msg = "" then none else some msg).toList.map fun m => ("message", wire.quote m), ?_⟩
    rcases hop with h | h | h | h <;> subst h <;>
      simp [wire.Line.members, wire.lineOf, wire.errorValue, wire.value, Op.takesErr]

theorem C8_error_key_unless_nil_valued_witness :
    (NewWithLevel ⟨[]⟩ TraceLevel).log.should Op.Trace.severity = true
      ∧ ((NewWithLevel ⟨[]⟩ TraceLevel).emit Op.Trace "" (some (zerolog.GoError.text "")) []).out
          = ["\x7b\"level\":\"trace\",\"data\":[],\"error\":\"\"\x7d\n"]
      ∧ (((NewWithLevel ⟨[]⟩ TraceLevel).emit Op.Trace "" (some (zerolog.GoError.text "")) []).out
          = (NewWithLevel ⟨[]⟩ TraceLevel).out
            ++ [(wire.lineOf Op.Trace "" (some (zerolog.GoError.text "")) []).render]
        ∧ ("error" ∈ (wire.lineOf Op.Trace "" (some (zerolog.GoError.text "")) []).keys
            ↔ (Op.Trace = Op.Trace ∨ Op.Trace = Op.Error ∨ Op.Trace = Op.Fatal
                ∨ Op.Trace = Op.Panic)
              ∧ some (zerolog.GoError.text "") ≠ none
              ∧ some (zerolog.GoError.text "") ≠ some zerolog.GoError.nilPointer)
        ∧ (∀ text, (Op.Trace = Op.Trace ∨ Op.Trace = Op.Error ∨ Op.Trace = Op.Fatal
                ∨ Op.Trace = Op.Panic) →
            some (zerolog.GoError.text "") = some (zerolog.GoError.text text) →
            ∃ pre post, (wire.lineOf Op.Trace "" (some (zerolog.GoError.text "")) []).members
              = pre ++ [("data", wire.array []), ("error", wire.quote text)] ++ post)
        ∧ (∀ k v, (Op.Trace = Op.Trace ∨ Op.Trace = Op.Error ∨ Op.Trace = Op.Fatal
                ∨ Op.Trace = Op.Panic) →
            some (zerolog.GoError.text "") = some (zerolog.GoError.marshaler k v) →
            ∃ pre post, (wire.lineOf Op.Trace "" (some (zerolog.GoError.text "")) []).members
              = pre ++ [("data", wire.array []),
                  ("error", ['\x7b'] ++ wire.quote k ++ [':'] ++ wire.value v ++ ['\x7d'])]
                ++ post)) :=
  ⟨by decide, by decide,
    C8_error_key_unless_nil_valued (NewWithLevel ⟨[]⟩ TraceLevel) Op.Trace ""
      (some (zerolog.GoError.text "")) [] (by decide)⟩

/-- C9: for every operation, field list and error argument, on a logger that writes the event
the call returns having handed the sink the line of the format for the call, and the top-level
object of that line has a `message` key if and only if the message is not empty; with an empty
message the line is the one with no `message` member. -/
theorem C9_message_key (l : Logger) (op : Op) (msg : String) (err : Option zerolog.GoError)
    (F : Fields)
    (hs : l.log.should op.severity = true) :
    (l.emit op msg err F).out = l.out ++ [(wire.lineOf op msg err F).render]
      ∧ ("message" ∈ (wire.lineOf op msg err F).keys ↔ msg ≠ "")
      ∧ (wire.lineOf op "" err F).message = none
      ∧ (msg ≠ "" → (wire.lineOf op msg err F).members.getLast?
          = some ("message", wire.quote msg)) := by
  refine ⟨out_written l op msg err F hs, ?_, by simp [wire.lineOf], ?_⟩
  · cases op <;> cases err <;> by_cases hm : msg = "" <;>
      simp [wire.Line.keys, wire.Line.members, wire.lineOf, Op.name, Op.takesErr, hm]
  · intro hm
    have hsplit : (wire.lineOf op msg err F).members
        = ((op.name.toList.map fun n => ("level", wire.quote n))
            ++ [("data", wire.array F)]
            ++ ((if op.takesErr then wire.errorValue err else none).toList.map
                fun b => ("error", b)))
          ++ [("message", wire.quote msg)] := by
      simp [wire.Line.members, wire.lineOf, hm]
    rw [hsplit, List.getLast?_concat]

theorem C9_message_key_witness :
    (New ⟨[]⟩).log.should Op.Info.severity = true
      ∧ ((New ⟨[]⟩).emit Op.Info "hello" none []).out
          = (New ⟨[]⟩).out ++ [(wire.lineOf Op.Info "hello" none []).render]
      ∧ ("message" ∈ (wire.lineOf Op.Info "hello" none []).keys ↔ "hello" ≠ "")
      ∧ (wire.lineOf Op.Info "" none []).message = none
      ∧ ("hello" ≠ "" → (wire.lineOf Op.Info "hello" none []).members.getLast?
          = some ("message", wire.quote "hello")) :=
  ⟨by decide, C9_message_key (New ⟨[]⟩) Op.Info "hello" none [] (by decide)⟩

/-- C10: `Log` is never filtered: for every sink, every integer level L, every message and
field list, `Log` on `New(S)` and on `NewWithLevel(S, L)` hands the sink exactly one line,
because the level `NewWithLevel` gives the engine is never above NoLevel = 6, the level at
which the engine emits `Log`. -/
theorem C10_Log_never_filtered (S : zerolog.Writer) (L : Level) (msg : String) (F : Fields) :
    ((New S).Log msg F).out = S.writes ++ [(wire.lineOf Op.Log msg none F).render]
      ∧ ((NewWithLevel S L).Log msg F).out
          = S.writes ++ [(wire.lineOf Op.Log msg none F).render]
      ∧ (NewWithLevel S L).log.level ≤ zerolog.NoLevel
      ∧ (NewWithLevel S L).log.should zerolog.NoLevel = true := by
  have hNew : ((New S).Log msg F).out
      = S.writes ++ [(wire.lineOf Op.Log msg none F).render] := by
    have := out_written (New S) Op.Log msg none F (New_should S Op.Log)
    simpa [Logger.emit, New_out] using this
  by_cases h : L < -1 ∨ L > 6
  · rw [NewWithLevel_out_of_range S L h]
    exact ⟨hNew, hNew, by rw [New_log_level]; decide, New_should S Op.Log⟩
  · have h1 : -1 ≤ L := by unfold Level at *; omega
    have h2 : L ≤ 6 := by unfold Level at *; omega
    have hN := NewWithLevel_in_range S L h1 h2
    have hs : (NewWithLevel S L).log.should Op.Log.severity = true := by
      rw [should_iff, hN]; exact ⟨h2, by decide⟩
    refine ⟨hNew, ?_, by rw [hN]; exact h2, hs⟩
    have := out_written (NewWithLevel S L) Op.Log msg none F hs
    rw [hN] at this ⊢
    simpa [Logger.emit] using this

end torolog
